import Mathlib

/-!
Shallow embedding of `skbonus/meta/_explainable_regressor.py`
(`ExplainableBoostingMetaRegressor`), and theorems checking the natural-language
specification against it.

Modelling conventions:
* floating-point numbers are modelled by `ℚ`;
* a 2-D numeric array is a `List (List ℚ)` of rows; a 1-D array is a `List ℚ`;
* a scikit-learn base regressor (clone → fit → predict pipeline) is a pure
  function `fitPredict : column → targets → weights → (input ↦ prediction)`:
  the Python code calls `clone` on the configured regressor and refits it from
  scratch each round, so no fitted state of the regressor is ever observable
  across rounds and the clone step is the identity on this pure value;
* exceptions are modelled with `Except Err`.
-/

namespace SkBonus

/-- A deterministic scikit-learn-compatible 1-D regressor, as used by the
meta-regressor: `clone(reg)` then `.fit(x, y, sample_weight=w)` then
`.predict` is one pure function from the fitting data to a prediction map. -/
structure BaseReg where
  fitPredict : List ℚ → List ℚ → List ℚ → ℚ → ℚ

/-- The constructor argument `base_regressor`: `None` (Python default, giving
`DecisionTreeRegressor(max_depth=4)`), a single regressor, or a Python list of
regressors (`isinstance(self.base_regressor, list)`). -/
inductive BaseSpec where
  | dflt : BaseSpec
  | single : BaseReg → BaseSpec
  | perFeature : List BaseReg → BaseSpec

/-- Constructor arguments of `ExplainableBoostingMetaRegressor`, plus the
stand-in for sklearn's `DecisionTreeRegressor(max_depth=4)` used when
`base_regressor is None` (that estimator is external library code, so it is an
arbitrary `BaseReg` here). `max_rounds` and `grid_points` are nonnegative
integers. -/
structure Config where
  base_regressor : BaseSpec
  max_rounds : ℕ
  learning_rate : ℚ
  grid_points : ℕ
  default_regressor : BaseReg

/-- The errors the Python methods raise: sklearn validation errors from
`check_X_y` / `check_array` / `_check_sample_weight`, the two explicit
`ValueError`s of `fit`, sklearn's `NotFittedError`, and the `ValueError` of
`_check_n_features(X, reset=False)` on a column-count mismatch. -/
inductive Err where
  | invalidInput : Err
  | configRegressors : Err
  | configLearningRate : Err
  | notFitted : Err
  | shapeMismatch : Err
deriving DecidableEq

/-- Is the error one of the two configuration `ValueError`s of `fit`? -/
def Err.isConfig : Err → Bool
  | .configRegressors => true
  | .configLearningRate => true
  | _ => false

/-- The fitted state that `predict` reads: `n_features_in_`, `domains_`,
`outputs_`, `mean_`.  (`fit` also stores the resolved regressor list as
`base_regressors_`; `predict` never reads it and it carries functions, so it is
returned through `resolveRegs` below rather than stored here.) -/
structure Model where
  n_features_in_ : ℕ
  domains_ : List (List ℚ)
  outputs_ : List (List ℚ)
  mean_ : ℚ
deriving DecidableEq

/-- `X.shape[1]`: the common row length of the validated 2-D array. -/
def nFeat (X : List (List ℚ)) : ℕ := (X.headD []).length

/-- `check_X_y(X, y)`: X is a proper 2-D array with at least one row and one
column (all rows of one length), and `y` has one entry per row. -/
def checkXy (X : List (List ℚ)) (y : List ℚ) : Bool :=
  !X.isEmpty && decide (0 < nFeat X) && X.all (fun row => row.length == nFeat X)
    && (y.length == X.length)

/-- `check_array(X)` as called by `predict`: a proper 2-D array with at least
one row and one column. -/
def checkArray (X : List (List ℚ)) : Bool :=
  !X.isEmpty && decide (0 < nFeat X) && X.all (fun row => row.length == nFeat X)

/-- `_check_sample_weight(sample_weight, X)`: `None` becomes a vector of ones
of length `n_samples`; an explicit vector must have that length. -/
def checkSampleWeight (sw : Option (List ℚ)) (X : List (List ℚ)) :
    Except Err (List ℚ) :=
  match sw with
  | none => .ok (List.replicate X.length 1)
  | some w => if w.length = X.length then .ok w else .error .invalidInput

/-- `X[:, j]`: column `j` of the row-major table. -/
def column (X : List (List ℚ)) (j : ℕ) : List ℚ :=
  X.map (fun row => row.getD j 0)

/-- `np.min` of a 1-D array (the empty case never occurs after validation). -/
def listMin : List ℚ → ℚ
  | [] => 0
  | a :: r => r.foldl min a

/-- `np.max` of a 1-D array (the empty case never occurs after validation). -/
def listMax : List ℚ → ℚ
  | [] => 0
  | a :: r => r.foldl max a

/-- `y.mean()`: the plain arithmetic mean. -/
def listMean (l : List ℚ) : ℚ := l.sum / l.length

/-- `np.linspace(a, b, num)` with the default `endpoint=True`: `num` evenly
spaced points from `a` to `b`.  For `num = 1` the sole point is `a` (the `k *
(b - a) / 0 = 0` convention of `ℚ` matches numpy returning `[a]`), and for
`num ≥ 2` the point at `k = num - 1` is exactly `b`. -/
def linspace (a b : ℚ) (num : ℕ) : List ℚ :=
  (List.range num).map
    (fun (k : ℕ) => a + (k : ℚ) * (b - a) / ((num : ℚ) - 1))

/-- The `base_regressors_` resolution at the top of `fit`: a single regressor
(or the default) is replicated across features; a list must have exactly
`n_features_in_` entries, else `ValueError`. -/
def resolveRegs (spec : BaseSpec) (d : BaseReg) (n : ℕ) :
    Except Err (List BaseReg) :=
  match spec with
  | .dflt => .ok (List.replicate n d)
  | .single r => .ok (List.replicate n r)
  | .perFeature rs => if rs.length = n then .ok rs else .error .configRegressors

/-- The mutable state of the `_fit` loop: the per-feature output curves and
the running residual `y_copy`. -/
structure BoostState where
  outputs : List (List ℚ)
  resid : List ℚ
deriving DecidableEq

/-- One iteration of the `_fit` loop, round `i`: pick feature
`j = i % n_features_in_`, clone and fit feature `j`'s base regressor on column
`j` against the residual with the sample weights, add `learning_rate` times
its grid predictions to curve `j`, subtract `learning_rate` times its
training-row predictions from the residual. -/
def fitRound (regs : List BaseReg) (d : BaseReg) (lr : ℚ) (X : List (List ℚ))
    (w : List ℚ) (domains : List (List ℚ)) (n : ℕ) (i : ℕ) (s : BoostState) :
    BoostState :=
  let j := i % n
  let x := column X j
  let h := (regs.getD j d).fitPredict x s.resid w
  { outputs := s.outputs.set j
      (List.zipWith (fun o g => o + lr * h g) (s.outputs.getD j [])
        (domains.getD j []))
    resid := List.zipWith (fun r v => r - lr * h v) s.resid x }

/-- The `_fit` method: `for i in range(rounds)` over `fitRound`. -/
def fitRounds (regs : List BaseReg) (d : BaseReg) (lr : ℚ) (X : List (List ℚ))
    (w : List ℚ) (domains : List (List ℚ)) (n : ℕ) (rounds : ℕ)
    (s : BoostState) : BoostState :=
  (List.range rounds).foldl (fun t i => fitRound regs d lr X w domains n i t) s

/-- The `domains_` attribute: per feature, `grid_points` evenly spaced values
from that column's minimum to its maximum. -/
def fitDomains (X : List (List ℚ)) (n G : ℕ) : List (List ℚ) :=
  (List.range n).map
    (fun j => linspace (listMin (column X j)) (listMax (column X j)) G)

/-- `np.zeros_like(domain)` for each domain: the initial output curves. -/
def initOutputs (domains : List (List ℚ)) : List (List ℚ) :=
  domains.map (fun dom => dom.map (fun _ => (0 : ℚ)))

/-- The `fit` method.  Mirrors the Python statement order: `check_X_y`,
`_check_sample_weight`, `base_regressors_` resolution (with its
`ValueError`), the `learning_rate` check, then `domains_` / `outputs_` /
`mean_` initialisation and the boosting loop on `y_copy = y - mean`. -/
def fitE (cfg : Config) (X : List (List ℚ)) (y : List ℚ)
    (sw : Option (List ℚ)) : Except Err Model :=
  if checkXy X y then
    match checkSampleWeight sw X with
    | .error e => .error e
    | .ok w =>
      match resolveRegs cfg.base_regressor cfg.default_regressor (nFeat X) with
      | .error e => .error e
      | .ok regs =>
        if cfg.learning_rate ≤ 0 then .error .configLearningRate
        else
          let domains := fitDomains X (nFeat X) cfg.grid_points
          let mean := listMean y
          let s := fitRounds regs cfg.default_regressor cfg.learning_rate X w
            domains (nFeat X) cfg.max_rounds
            ⟨initOutputs domains, y.map (fun v => v - mean)⟩
          .ok { n_features_in_ := nFeat X, domains_ := domains,
                outputs_ := s.outputs, mean_ := mean }
  else .error .invalidInput

/-- The index update of `np.argmin`, scanning left to right and keeping the
first index of the strictly smallest value seen so far. -/
def argminAux : List ℚ → ℚ → ℕ → ℕ → ℕ
  | [], _, best, _ => best
  | b :: rest, bv, best, i =>
    if b < bv then argminAux rest b i (i + 1) else argminAux rest bv best (i + 1)

/-- `np.argmin` of a 1-D array: the first index of the minimum. -/
def argminList : List ℚ → ℕ
  | [] => 0
  | a :: rest => argminAux rest a 0 1

/-- The grid-lookup index of `predict` for one feature value:
`np.abs(grid - v).argmin()`, the first index of the closest grid point. -/
def nearestIdx (grid : List ℚ) (v : ℚ) : ℕ :=
  argminList (grid.map (fun g => |g - v|))

/-- The per-row computation of `predict`: for each feature, look up the output
curve at the nearest grid point of the row's value, sum, and add `mean_`. -/
def predictRow (m : Model) (row : List ℚ) : ℚ :=
  ((List.range m.n_features_in_).map (fun j =>
    (m.outputs_.getD j []).getD
      (nearestIdx (m.domains_.getD j []) (row.getD j 0)) 0)).sum + m.mean_

/-- The `predict` method on a possibly never-fit estimator (`none` = fresh
instance).  Mirrors the statement order: `check_array(X)`, then
`check_is_fitted(self)`, then `_check_n_features(X, reset=False)`, then the
grid-lookup loop. -/
def predictE (fitted : Option Model) (X : List (List ℚ)) :
    Except Err (List ℚ) :=
  if checkArray X then
    match fitted with
    | none => .error .notFitted
    | some m =>
      if nFeat X = m.n_features_in_ then .ok (X.map (predictRow m))
      else .error .shapeMismatch
  else .error .invalidInput

/-- Did the call raise at all? -/
def errored : Except Err Model → Bool
  | .error _ => true
  | .ok _ => false

/-- Did the call raise one of the two configuration `ValueError`s? -/
def configErrored : Except Err Model → Bool
  | .error e => e.isConfig
  | .ok _ => false

/-- Is `base_regressor` a list of the wrong length for `n` features? -/
def badRegLen (spec : BaseSpec) (n : ℕ) : Bool :=
  match spec with
  | .perFeature rs => !(rs.length == n)
  | _ => false

/-! Concrete instances evaluated by the witness theorems. -/

/-- A deterministic base regressor whose predictions are the identity map
(monotone in its feature, independent of the fitting data). -/
def idReg : BaseReg := ⟨fun _ _ _ t => t⟩

/-- A two-sample, one-feature training table. -/
def demoX : List (List ℚ) := [[0], [2]]

/-- Training targets for `demoX`; their mean is `2`. -/
def demoY : List ℚ := [1, 3]

/-- A configuration with `max_rounds = 0`, `learning_rate = 1`,
`grid_points = 3`. -/
def cfgA : Config := ⟨.single idReg, 0, 1, 3, idReg⟩

/-- The fitted state of `fitE cfgA demoX demoY`: grid `[0, 1, 2]`, all-zero
output curve, mean `2`. -/
def mA : Model := ⟨1, [[0, 1, 2]], [[0, 0, 0]], 2⟩

/-- A configuration with one boosting round, `learning_rate = 1`,
`grid_points = 2`. -/
def cfgB : Config := ⟨.single idReg, 1, 1, 2, idReg⟩

/-- The fitted state of `fitE cfgB demoX demoY`: after the one round with the
identity regressor, the output curve equals the grid `[0, 2]`. -/
def mB : Model := ⟨1, [[0, 2]], [[0, 2]], 2⟩

/-- `cfgA` with the invalid `learning_rate = 0`. -/
def cfgBad : Config := ⟨.single idReg, 0, 0, 3, idReg⟩

/-- A literal fitted model with two features whose second grid holds a
duplicated point, exercising the first-minimum tie-break. -/
def mC : Model := ⟨2, [[0, 1], [5, 5]], [[10, 20], [30, 40]], 7⟩

/-! ## Helper lemmas -/

/-- `getD` after `set` at the written index: the new value in range, the
default out of range. -/
theorem getD_set_self {α : Type} (l : List α) (j : ℕ) (v d : α) :
    (l.set j v).getD j d = if j < l.length then v else d := by
  rcases lt_or_le j l.length with hj | hj
  · rw [List.getD_eq_getElem?_getD, List.getElem?_set_self hj]
    simp [hj]
  · rw [List.getD_eq_getElem?_getD, List.getElem?_eq_none (by simpa using hj)]
    simp [not_lt.mpr hj]

/-- `getD` after `set` at another index is unchanged. -/
theorem getD_set_ne {α : Type} (l : List α) (i j : ℕ) (v d : α) (h : i ≠ j) :
    (l.set i v).getD j d = l.getD j d := by
  rw [List.getD_eq_getElem?_getD, List.getElem?_set_ne h,
    ← List.getD_eq_getElem?_getD]

/-- Unrolling the boosting loop: running `k + 1` rounds is running `k` rounds
and then round `k`. -/
theorem fitRounds_succ (regs : List BaseReg) (d : BaseReg) (lr : ℚ)
    (X : List (List ℚ)) (w : List ℚ) (domains : List (List ℚ)) (n k : ℕ)
    (s : BoostState) :
    fitRounds regs d lr X w domains n (k + 1) s =
      fitRound regs d lr X w domains n k
        (fitRounds regs d lr X w domains n k s) := by
  simp [fitRounds, List.range_succ]

/-- Running zero rounds leaves the state unchanged. -/
theorem fitRounds_zero (regs : List BaseReg) (d : BaseReg) (lr : ℚ)
    (X : List (List ℚ)) (w : List ℚ) (domains : List (List ℚ)) (n : ℕ)
    (s : BoostState) : fitRounds regs d lr X w domains n 0 s = s := rfl

/-- Anatomy of a successful `fit` call: the validations passed, the learning
rate is positive, and the fitted state is exactly the grid initialisation
followed by `max_rounds` boosting rounds on the centred targets. -/
theorem fitE_ok_elim (cfg : Config) (X : List (List ℚ)) (y : List ℚ)
    (sw : Option (List ℚ)) (m : Model) (h : fitE cfg X y sw = .ok m) :
    checkXy X y = true ∧ 0 < cfg.learning_rate ∧
    ∃ w regs, checkSampleWeight sw X = .ok w ∧
      resolveRegs cfg.base_regressor cfg.default_regressor (nFeat X) = .ok regs ∧
      m = { n_features_in_ := nFeat X,
            domains_ := fitDomains X (nFeat X) cfg.grid_points,
            outputs_ := (fitRounds regs cfg.default_regressor cfg.learning_rate
              X w (fitDomains X (nFeat X) cfg.grid_points) (nFeat X)
              cfg.max_rounds
              ⟨initOutputs (fitDomains X (nFeat X) cfg.grid_points),
               y.map (fun v => v - listMean y)⟩).outputs,
            mean_ := listMean y } := by
  cases hXy : checkXy X y with
  | false =>
    simp only [fitE, hXy, Bool.false_eq_true, if_false] at h
    cases h
  | true =>
    cases hw : checkSampleWeight sw X with
    | error e =>
      simp only [fitE, hXy, hw, if_true] at h
      cases h
    | ok w =>
      cases hr : resolveRegs cfg.base_regressor cfg.default_regressor (nFeat X) with
      | error e =>
        simp only [fitE, hXy, hw, hr, if_true] at h
        cases h
      | ok regs =>
        by_cases hlr : cfg.learning_rate ≤ 0
        · simp only [fitE, hXy, hw, hr, if_true, if_pos hlr] at h
          cases h
        · simp only [fitE, hXy, hw, hr, if_true, if_neg hlr] at h
          refine ⟨rfl, not_le.mp hlr, w, regs, rfl, rfl, ?_⟩
          injection h with h
          exact h.symm

/-- Concrete evaluation: fitting `cfgA` (zero rounds) on the demo data. -/
theorem fitE_cfgA : fitE cfgA demoX demoY none = .ok mA := by
  simp [fitE, cfgA, demoX, demoY, mA, checkXy, nFeat, checkSampleWeight,
    resolveRegs, fitDomains, linspace, listMin, listMax, column, listMean,
    initOutputs, fitRounds, fitRound, idReg, List.range_succ]
  norm_num

/-- Concrete evaluation: the same fit with a non-uniform sample-weight
vector. -/
theorem fitE_cfgA_weighted : fitE cfgA demoX demoY (some [2, 5]) = .ok mA := by
  simp [fitE, cfgA, demoX, demoY, mA, checkXy, nFeat, checkSampleWeight,
    resolveRegs, fitDomains, linspace, listMin, listMax, column, listMean,
    initOutputs, fitRounds, fitRound, idReg, List.range_succ]
  norm_num

/-- Concrete evaluation: fitting `cfgB` (one round) on the demo data. -/
theorem fitE_cfgB : fitE cfgB demoX demoY none = .ok mB := by
  simp [fitE, cfgB, demoX, demoY, mB, checkXy, nFeat, checkSampleWeight,
    resolveRegs, fitDomains, linspace, listMin, listMax, column, listMean,
    initOutputs, fitRounds, fitRound, idReg, List.range_succ]
  norm_num

/-! ## Claims -/

/-- C3: two independent `fit` calls on identical training features, targets,
sample weights and configuration (the base regressors being deterministic is
built into the embedding: a `BaseReg` is a pure function) produce identical
per-feature grids `domains_`, identical per-feature output curves `outputs_`,
and identical global mean `mean_`. -/
theorem fit_deterministic (cfg₁ cfg₂ : Config) (X₁ X₂ : List (List ℚ))
    (y₁ y₂ : List ℚ) (sw₁ sw₂ : Option (List ℚ)) (m₁ m₂ : Model)
    (h₁ : fitE cfg₁ X₁ y₁ sw₁ = .ok m₁) (h₂ : fitE cfg₂ X₂ y₂ sw₂ = .ok m₂)
    (hc : cfg₁ = cfg₂) (hX : X₁ = X₂) (hy : y₁ = y₂) (hw : sw₁ = sw₂) :
    m₁.domains_ = m₂.domains_ ∧ m₁.outputs_ = m₂.outputs_ ∧
      m₁.mean_ = m₂.mean_ := by
  subst hc hX hy hw
  rw [h₁] at h₂
  injection h₂ with h₂
  rw [h₂]
  exact ⟨rfl, rfl, rfl⟩

/-- Witness for C3 at the demo fit. -/
theorem fit_deterministic_witness :
    mA.domains_ = mA.domains_ ∧ mA.outputs_ = mA.outputs_ ∧
      mA.mean_ = mA.mean_ :=
  fit_deterministic cfgA cfgA demoX demoX demoY demoY none none mA mA
    fitE_cfgA fitE_cfgA rfl rfl rfl rfl

/-- C7: `predict` on a never-fit estimator raises the not-fitted error (for
an input that passes `check_array`, which the Python code runs first — see
C10) and returns no prediction vector. -/
theorem predict_before_fit_not_fitted (X : List (List ℚ))
    (hX : checkArray X = true) : predictE none X = .error .notFitted := by
  simp [predictE, hX]

/-- Witness for C7 on a well-formed 1×1 input. -/
theorem predict_before_fit_not_fitted_witness :
    predictE none [[1]] = .error .notFitted :=
  predict_before_fit_not_fitted [[1]] (by decide)

/-- C8: a successful `predict` returns exactly one prediction per input
row. -/
theorem predict_length_eq_rows (m : Model) (X : List (List ℚ)) (r : List ℚ)
    (h : predictE (some m) X = .ok r) : r.length = X.length := by
  simp only [predictE] at h
  split at h
  · split at h
    · injection h with h
      rw [← h, List.length_map]
    · cases h
  · cases h

/-- Witness for C8: predicting one row with `mB`. -/
theorem predict_length_eq_rows_witness : ([(2 : ℚ)]).length = [[(1 : ℚ)]].length :=
  predict_length_eq_rows mB [[1]] [2] (by
    simp [predictE, mB, checkArray, nFeat, predictRow, nearestIdx, argminList,
      argminAux, List.range_succ]
    norm_num [argminAux])

/-- C9: the fitted global mean is the plain unweighted arithmetic mean of the
targets, whatever sample-weight vector was supplied. -/
theorem fit_mean_unweighted (cfg : Config) (X : List (List ℚ)) (y : List ℚ)
    (sw : Option (List ℚ)) (m : Model) (h : fitE cfg X y sw = .ok m) :
    m.mean_ = y.sum / (y.length : ℚ) := by
  obtain ⟨-, -, w, regs, -, -, hm⟩ := fitE_ok_elim cfg X y sw m h
  rw [hm]
  rfl

/-- Witness for C9: the demo fit with non-uniform weights `[2, 5]` still has
the unweighted mean `2`. -/
theorem fit_mean_unweighted_witness :
    mA.mean_ = demoY.sum / (demoY.length : ℚ) :=
  fit_mean_unweighted cfgA demoX demoY (some [2, 5]) mA fitE_cfgA_weighted

/-- In-range `getD` is a member of the list. -/
theorem getD_mem {α : Type} (l : List α) (n : ℕ) (d : α) (h : n < l.length) :
    l.getD n d ∈ l := by
  rw [List.getD_eq_getElem l d h]
  exact List.getElem_mem h

/-- A list whose elements are all zero reads zero at every index, in or out
of range. -/
theorem getD_zero_of_all_zero (l : List ℚ) (hl : ∀ q ∈ l, q = 0) (k : ℕ) :
    l.getD k 0 = 0 := by
  rcases lt_or_le k l.length with hk | hk
  · exact hl _ (getD_mem l k 0 hk)
  · exact List.getD_eq_default l 0 hk

/-- C6: for training inputs that pass `check_X_y` and `_check_sample_weight`,
`fit` raises exactly in the two configuration cases — `base_regressor` given
as a list of the wrong length, or `learning_rate ≤ 0` — and every error it
then raises is one of those two configuration errors, raised instead of
producing any fitted model (so no boosting computation happens). -/
theorem fit_config_error_cases (cfg : Config) (X : List (List ℚ)) (y : List ℚ)
    (sw : Option (List ℚ)) (w : List ℚ)
    (hXy : checkXy X y = true) (hw : checkSampleWeight sw X = .ok w) :
    configErrored (fitE cfg X y sw)
        = (badRegLen cfg.base_regressor (nFeat X)
            || decide (cfg.learning_rate ≤ 0))
    ∧ errored (fitE cfg X y sw) = configErrored (fitE cfg X y sw) := by
  cases hspec : cfg.base_regressor with
  | dflt =>
    by_cases hlr : cfg.learning_rate ≤ 0 <;>
      simp [fitE, hXy, hw, hspec, resolveRegs, badRegLen, configErrored,
        errored, Err.isConfig, hlr]
  | single r =>
    by_cases hlr : cfg.learning_rate ≤ 0 <;>
      simp [fitE, hXy, hw, hspec, resolveRegs, badRegLen, configErrored,
        errored, Err.isConfig, hlr]
  | perFeature rs =>
    by_cases hlen : rs.length = nFeat X <;>
      by_cases hlr : cfg.learning_rate ≤ 0 <;>
        simp [fitE, hXy, hw, hspec, resolveRegs, badRegLen, configErrored,
          errored, Err.isConfig, hlen, hlr]

/-- Witness for C6: `cfgBad` has `learning_rate = 0`, so the demo fit raises
a configuration error. -/
theorem fit_config_error_cases_witness :
    configErrored (fitE cfgBad demoX demoY none)
        = (badRegLen cfgBad.base_regressor (nFeat demoX)
            || decide (cfgBad.learning_rate ≤ 0))
    ∧ errored (fitE cfgBad demoX demoY none)
        = configErrored (fitE cfgBad demoX demoY none) :=
  fit_config_error_cases cfgBad demoX demoY none [1, 1] (by decide) rfl

/-- C4: fitting with `max_rounds = 0` yields all-zero output curves, and
every successful `predict` on the resulting model returns the global mean for
every row. -/
theorem zero_rounds_zero_curves_mean_prediction (cfg : Config)
    (X : List (List ℚ)) (y : List ℚ) (sw : Option (List ℚ)) (m : Model)
    (hm : fitE cfg X y sw = .ok m) (h0 : cfg.max_rounds = 0) :
    (∀ cur ∈ m.outputs_, ∀ q ∈ cur, q = 0) ∧
    ∀ (Xp : List (List ℚ)) (r : List ℚ), predictE (some m) Xp = .ok r →
      ∀ p ∈ r, p = m.mean_ := by
  obtain ⟨-, -, w, regs, -, -, hmeq⟩ := fitE_ok_elim cfg X y sw m hm
  have hzero : ∀ cur ∈ m.outputs_, ∀ q ∈ cur, q = 0 := by
    have houts :
        m.outputs_ = initOutputs (fitDomains X (nFeat X) cfg.grid_points) := by
      rw [hmeq, h0]
      rfl
    rw [houts]
    intro cur hcur q hq
    simp only [initOutputs, List.mem_map] at hcur
    obtain ⟨dom, -, hdom⟩ := hcur
    rw [← hdom] at hq
    simp only [List.mem_map] at hq
    obtain ⟨g, -, hg⟩ := hq
    exact hg.symm
  refine ⟨hzero, ?_⟩
  intro Xp r hp p hpmem
  simp only [predictE] at hp
  split at hp
  · split at hp
    · injection hp with hp
      rw [← hp] at hpmem
      simp only [List.mem_map] at hpmem
      obtain ⟨row, -, hrow⟩ := hpmem
      rw [← hrow]
      unfold predictRow
      have hall : ∀ x ∈ (List.range m.n_features_in_).map (fun j =>
          (m.outputs_.getD j []).getD
            (nearestIdx (m.domains_.getD j []) (row.getD j 0)) 0), x = 0 := by
        intro x hx
        simp only [List.mem_map] at hx
        obtain ⟨j, -, hj⟩ := hx
        rw [← hj]
        rcases lt_or_le j m.outputs_.length with hlt | hle
        · exact getD_zero_of_all_zero _
            (hzero _ (getD_mem m.outputs_ j [] hlt)) _
        · rw [List.getD_eq_default _ _ hle]
          simp
      rw [List.sum_eq_zero hall, zero_add]
    · cases hp
  · cases hp

/-- Witness for C4 at the zero-round demo fit. -/
theorem zero_rounds_zero_curves_mean_prediction_witness :
    (∀ cur ∈ mA.outputs_, ∀ q ∈ cur, q = 0) ∧
    ∀ (Xp : List (List ℚ)) (r : List ℚ), predictE (some mA) Xp = .ok r →
      ∀ p ∈ r, p = mA.mean_ :=
  zero_rounds_zero_curves_mean_prediction cfgA demoX demoY none mA
    fitE_cfgA rfl

/-- Round `i` writes to curve `i % n` exactly the element-wise
`learning_rate`-scaled grid predictions of the regressor fit on column
`i % n` against the current residual. -/
theorem fitRound_outputs_self (regs : List BaseReg) (d : BaseReg) (lr : ℚ)
    (X : List (List ℚ)) (w : List ℚ) (domains : List (List ℚ)) (n i : ℕ)
    (s : BoostState) :
    (fitRound regs d lr X w domains n i s).outputs.getD (i % n) [] =
      List.zipWith
        (fun o g => o + lr *
          (regs.getD (i % n) d).fitPredict (column X (i % n)) s.resid w g)
        (s.outputs.getD (i % n) []) (domains.getD (i % n) []) := by
  simp only [fitRound]
  rw [getD_set_self]
  split
  · rfl
  · rename_i hlen
    rw [List.getD_eq_default _ _ (not_lt.mp hlen)]
    simp

/-- Round `i` leaves every curve other than `i % n` unchanged. -/
theorem fitRound_outputs_other (regs : List BaseReg) (d : BaseReg) (lr : ℚ)
    (X : List (List ℚ)) (w : List ℚ) (domains : List (List ℚ)) (n i : ℕ)
    (s : BoostState) (j' : ℕ) (hne : j' ≠ i % n) :
    (fitRound regs d lr X w domains n i s).outputs.getD j' [] =
      s.outputs.getD j' [] := by
  simp only [fitRound]
  exact getD_set_ne _ _ _ _ _ (fun hEq => hne hEq.symm)

/-- Round `i` subtracts the `learning_rate`-scaled training-row predictions
from the running residual. -/
theorem fitRound_resid (regs : List BaseReg) (d : BaseReg) (lr : ℚ)
    (X : List (List ℚ)) (w : List ℚ) (domains : List (List ℚ)) (n i : ℕ)
    (s : BoostState) :
    (fitRound regs d lr X w domains n i s).resid =
      List.zipWith
        (fun r v => r - lr *
          (regs.getD (i % n) d).fitPredict (column X (i % n)) s.resid w v)
        s.resid (column X (i % n)) := rfl

/-- C1: in a fit with `max_rounds = R`, round `i < R` operates on feature
`j = i % n` in strict round-robin order: with `s` the loop state after `i`
rounds and `h` the fresh clone of feature `j`'s base regressor fit on column
`j` against the current residual with the sample weights, the state after
`i + 1` rounds has curve `j` incremented element-wise by `learning_rate`
times `h`'s grid predictions, every other curve unchanged, and the residual
decremented element-wise by `learning_rate` times `h`'s predictions on the
training rows of column `j`; the fitted `outputs_` are the result of all `R`
rounds from the all-zero initial state. -/
theorem fit_round_robin_update (cfg : Config) (X : List (List ℚ)) (y : List ℚ)
    (sw : Option (List ℚ)) (m : Model) (w : List ℚ) (regs : List BaseReg)
    (i : ℕ)
    (hm : fitE cfg X y sw = .ok m)
    (hw : checkSampleWeight sw X = .ok w)
    (hregs : resolveRegs cfg.base_regressor cfg.default_regressor (nFeat X)
      = .ok regs)
    (hi : i < cfg.max_rounds) :
    let n := nFeat X
    let domains := fitDomains X n cfg.grid_points
    let s0 : BoostState := ⟨initOutputs domains, y.map (fun v => v - listMean y)⟩
    let s := fitRounds regs cfg.default_regressor cfg.learning_rate X w
      domains n i s0
    let j := i % n
    let h := (regs.getD j cfg.default_regressor).fitPredict (column X j)
      s.resid w
    let s' := fitRounds regs cfg.default_regressor cfg.learning_rate X w
      domains n (i + 1) s0
    (s'.outputs.getD j [] =
      List.zipWith (fun o g => o + cfg.learning_rate * h g)
        (s.outputs.getD j []) (domains.getD j []))
    ∧ (∀ j', j' ≠ j → s'.outputs.getD j' [] = s.outputs.getD j' [])
    ∧ (s'.resid =
        List.zipWith (fun r v => r - cfg.learning_rate * h v) s.resid
          (column X j))
    ∧ m.outputs_ = (fitRounds regs cfg.default_regressor cfg.learning_rate X
        w domains n cfg.max_rounds s0).outputs := by
  intro n domains s0 s j h s'
  have hstep : s' = fitRound regs cfg.default_regressor cfg.learning_rate X w
      domains n i s :=
    fitRounds_succ regs cfg.default_regressor cfg.learning_rate X w domains n
      i s0
  refine ⟨?_, ?_, ?_, ?_⟩
  · rw [hstep]
    exact fitRound_outputs_self regs cfg.default_regressor cfg.learning_rate
      X w domains n i s
  · intro j' hne
    rw [hstep]
    exact fitRound_outputs_other regs cfg.default_regressor cfg.learning_rate
      X w domains n i s j' hne
  · rw [hstep]
    exact fitRound_resid regs cfg.default_regressor cfg.learning_rate X w
      domains n i s
  · obtain ⟨-, -, w', regs', hw', hregs', hmeq⟩ := fitE_ok_elim cfg X y sw m hm
    rw [hw] at hw'
    injection hw' with hw'
    rw [hregs] at hregs'
    injection hregs' with hregs'
    rw [hmeq, hw', hregs']

/-- Witness for C1 at the one-round demo fit, round `i = 0`. -/
theorem fit_round_robin_update_witness :
    let n := nFeat demoX
    let domains := fitDomains demoX n cfgB.grid_points
    let s0 : BoostState :=
      ⟨initOutputs domains, demoY.map (fun v => v - listMean demoY)⟩
    let s := fitRounds [idReg] cfgB.default_regressor cfgB.learning_rate demoX
      [1, 1] domains n 0 s0
    let j := 0 % n
    let h := (([idReg] : List BaseReg).getD j cfgB.default_regressor).fitPredict
      (column demoX j) s.resid [1, 1]
    let s' := fitRounds [idReg] cfgB.default_regressor cfgB.learning_rate demoX
      [1, 1] domains n (0 + 1) s0
    (s'.outputs.getD j [] =
      List.zipWith (fun o g => o + cfgB.learning_rate * h g)
        (s.outputs.getD j []) (domains.getD j []))
    ∧ (∀ j', j' ≠ j → s'.outputs.getD j' [] = s.outputs.getD j' [])
    ∧ (s'.resid =
        List.zipWith (fun r v => r - cfgB.learning_rate * h v) s.resid
          (column demoX j))
    ∧ mB.outputs_ = (fitRounds [idReg] cfgB.default_regressor
        cfgB.learning_rate demoX [1, 1] domains n cfgB.max_rounds s0).outputs :=
  fit_round_robin_update cfgB demoX demoY none mB [1, 1] [idReg] 0 fitE_cfgB
    rfl rfl (by decide)

/-- Scanning a list of nonnegative values with current best value `0` never
moves the best index: no strictly smaller value can appear. -/
theorem argminAux_zero_best : ∀ (l : List ℚ) (best i : ℕ),
    (∀ b ∈ l, 0 ≤ b) → argminAux l 0 best i = best
  | [], _, _, _ => rfl
  | b :: rest, best, i, hpos => by
    have hb : ¬ b < 0 := not_lt.mpr (hpos b (List.mem_cons_self b rest))
    simp only [argminAux, if_neg hb]
    exact argminAux_zero_best rest best (i + 1)
      (fun c hc => hpos c (List.mem_cons_of_mem b hc))

/-- Scanning the absolute differences to `v` with a strictly positive current
best value lands on the first exact occurrence of `v`. -/
theorem argminAux_abs_indexOf : ∀ (grid : List ℚ) (v bv : ℚ) (best i : ℕ),
    0 < bv → v ∈ grid →
    argminAux (grid.map fun g => |g - v|) bv best i = i + List.indexOf v grid
  | [], v, _, _, _, _, hv => absurd hv (List.not_mem_nil v)
  | g :: rest, v, bv, best, i, hbv, hv => by
    by_cases hgv : g = v
    · subst hgv
      have hnn : ∀ c ∈ List.map (fun x => |x - g|) rest, 0 ≤ c := by
        intro c hc
        obtain ⟨a, -, ha⟩ := List.mem_map.mp hc
        rw [← ha]
        exact abs_nonneg _
      simp only [List.map_cons, argminList, argminAux, sub_self, abs_zero,
        if_pos hbv, List.indexOf_cons_self]
      rw [argminAux_zero_best _ _ _ hnn]
      omega
    · have hv' : v ∈ rest := (List.mem_cons.mp hv).resolve_left
        (fun hEq => hgv hEq.symm)
      have habs : 0 < |g - v| := abs_pos.mpr (sub_ne_zero.mpr hgv)
      have hidx : List.indexOf v (g :: rest) = List.indexOf v rest + 1 :=
        List.indexOf_cons_ne rest hgv
      simp only [List.map_cons, argminAux]
      split
      · rw [argminAux_abs_indexOf rest v _ i (i + 1) habs hv', hidx]
        omega
      · rw [argminAux_abs_indexOf rest v bv best (i + 1) hbv hv', hidx]
        omega

/-- The nearest-grid-point lookup at a value that occurs in the grid selects
the first occurrence of that value. -/
theorem nearestIdx_exact_hit (grid : List ℚ) (v : ℚ) (hv : v ∈ grid) :
    nearestIdx grid v = List.indexOf v grid := by
  cases grid with
  | nil => exact absurd hv (List.not_mem_nil v)
  | cons g rest =>
    by_cases hgv : g = v
    · subst hgv
      have hnn : ∀ c ∈ List.map (fun x => |x - g|) rest, 0 ≤ c := by
        intro c hc
        obtain ⟨a, -, ha⟩ := List.mem_map.mp hc
        rw [← ha]
        exact abs_nonneg _
      simp only [nearestIdx, List.map_cons, argminList, sub_self, abs_zero,
        List.indexOf_cons_self]
      rw [argminAux_zero_best _ _ _ hnn]
    · have hv' : v ∈ rest := (List.mem_cons.mp hv).resolve_left
        (fun hEq => hgv hEq.symm)
      have habs : 0 < |g - v| := abs_pos.mpr (sub_ne_zero.mpr hgv)
      simp only [nearestIdx, List.map_cons, argminList]
      rw [argminAux_abs_indexOf rest v _ 0 1 habs hv',
        List.indexOf_cons_ne rest hgv]
      omega

/-- The grid reads back the searched value at its first occurrence. -/
theorem getD_indexOf (grid : List ℚ) (v : ℚ) (hv : v ∈ grid) :
    grid.getD (List.indexOf v grid) 0 = v := by
  have hlt : List.indexOf v grid < grid.length := List.indexOf_lt_length.mpr hv
  rw [List.getD_eq_getElem grid 0 hlt]
  exact List.getElem_indexOf hlt

/-- C2: on a row whose value for each feature `j` occurs in feature `j`'s
grid, `predict` selects for each feature the first (lowest-index) minimum of
the absolute differences — the first exact occurrence — the grid holds
exactly the row's value there, and the row's prediction is the sum over
features of the stored curve value at that exactly-hit index plus the global
mean. -/
theorem predict_exact_grid_hit (m : Model) (row : List ℚ)
    (hhit : ∀ j, j < m.n_features_in_ → row.getD j 0 ∈ m.domains_.getD j []) :
    (∀ j, j < m.n_features_in_ →
      nearestIdx (m.domains_.getD j []) (row.getD j 0)
          = List.indexOf (row.getD j 0) (m.domains_.getD j []) ∧
      (m.domains_.getD j []).getD
          (List.indexOf (row.getD j 0) (m.domains_.getD j [])) 0
        = row.getD j 0) ∧
    predictRow m row = ((List.range m.n_features_in_).map (fun j =>
      (m.outputs_.getD j []).getD
        (List.indexOf (row.getD j 0) (m.domains_.getD j [])) 0)).sum
      + m.mean_ := by
  constructor
  · intro j hj
    exact ⟨nearestIdx_exact_hit _ _ (hhit j hj),
      getD_indexOf _ _ (hhit j hj)⟩
  · unfold predictRow
    congr 1
    refine congrArg List.sum (List.map_congr_left ?_)
    intro j hj
    rw [nearestIdx_exact_hit _ _ (hhit j (List.mem_range.mp hj))]

/-- Witness for C2: the literal model `mC`, whose second grid has a
duplicated point `5`, on the row `[1, 5]` hitting both grids exactly. -/
theorem predict_exact_grid_hit_witness :
    (∀ j, j < mC.n_features_in_ →
      nearestIdx (mC.domains_.getD j []) (([1, 5] : List ℚ).getD j 0)
          = List.indexOf (([1, 5] : List ℚ).getD j 0) (mC.domains_.getD j []) ∧
      (mC.domains_.getD j []).getD
          (List.indexOf (([1, 5] : List ℚ).getD j 0) (mC.domains_.getD j [])) 0
        = ([1, 5] : List ℚ).getD j 0) ∧
    predictRow mC [1, 5] = ((List.range mC.n_features_in_).map (fun j =>
      (mC.outputs_.getD j []).getD
        (List.indexOf (([1, 5] : List ℚ).getD j 0) (mC.domains_.getD j [])) 0)).sum
      + mC.mean_ :=
  predict_exact_grid_hit mC [1, 5] (by
    intro j hj
    have hj2 : j < 2 := by simpa [mC] using hj
    interval_cases j <;> norm_num [mC])

/-- Every list is a chain for a relation that always holds. -/
theorem chain_trivial {α : Type} (S : α → α → Prop) (hS : ∀ a b, S a b) :
    ∀ l : List α, l.Chain' S
  | [] => List.chain'_nil
  | [a] => List.chain'_singleton a
  | a :: b :: l => List.chain'_cons.mpr ⟨hS a b, chain_trivial S hS (b :: l)⟩

/-- A constant-zero list is a chain for any relation relating `0` to `0`. -/
theorem chain_zero_map {α : Type} (R : ℚ → ℚ → Prop) (h0 : R 0 0)
    (l : List α) : (l.map (fun _ => (0 : ℚ))).Chain' R :=
  (List.chain'_map _).mpr (chain_trivial _ (fun _ _ => h0) l)

/-- Element-wise adding an `≤`-respecting image of an `≤`-chain preserves an
`R`-chain, for any `R` compatible with addition. -/
theorem chain_zipWith_add (R : ℚ → ℚ → Prop)
    (hadd : ∀ a b c d, R a b → R c d → R (a + c) (b + d))
    (f : ℚ → ℚ) (hf : ∀ a b, a ≤ b → R (f a) (f b)) :
    ∀ (xs gs : List ℚ), xs.Chain' R → gs.Chain' (fun u v => u ≤ v) →
      (List.zipWith (fun o g => o + f g) xs gs).Chain' R
  | [], _, _, _ => by simp
  | _ :: _, [], _, _ => by simp
  | [_], _ :: _, _, _ => by simp
  | _ :: _ :: _, [_], _, _ => by simp
  | x₁ :: x₂ :: xs, g₁ :: g₂ :: gs, hx, hg => by
    simp only [List.zipWith_cons_cons]
    exact List.chain'_cons.mpr
      ⟨hadd _ _ _ _ (List.chain'_cons.mp hx).1 (hf _ _ (List.chain'_cons.mp hg).1),
       chain_zipWith_add R hadd f hf (x₂ :: xs) (g₂ :: gs)
         (List.chain'_cons.mp hx).2 (List.chain'_cons.mp hg).2⟩

/-- The boosting loop preserves, on every output curve, any chain relation
`R` compatible with addition, provided every round's scaled regressor
predictions respect `R` along `≤` and every grid is sorted. -/
theorem fitRounds_chain (R : ℚ → ℚ → Prop)
    (hadd : ∀ a b c d, R a b → R c d → R (a + c) (b + d))
    (regs : List BaseReg) (d : BaseReg) (lr : ℚ) (X : List (List ℚ))
    (w : List ℚ) (domains : List (List ℚ)) (n : ℕ)
    (hregs : ∀ r ∈ regs, ∀ col ys ws a b, a ≤ b →
      R (lr * r.fitPredict col ys ws a) (lr * r.fitPredict col ys ws b))
    (hn : 0 < n) (hlen : regs.length = n)
    (hdom : ∀ j, (domains.getD j []).Chain' (fun u v => u ≤ v)) :
    ∀ (rounds : ℕ) (s : BoostState),
      (∀ j, (s.outputs.getD j []).Chain' R) →
      ∀ j,
        ((fitRounds regs d lr X w domains n rounds s).outputs.getD j []).Chain' R
  | 0, _, hs => hs
  | (k + 1), s, hs => by
    intro j
    rw [fitRounds_succ]
    have hts : ∀ j,
        ((fitRounds regs d lr X w domains n k s).outputs.getD j []).Chain' R :=
      fitRounds_chain R hadd regs d lr X w domains n hregs hn hlen hdom k s hs
    by_cases hjc : j = k % n
    · subst hjc
      rw [fitRound_outputs_self]
      refine chain_zipWith_add R hadd _ ?_ _ _ (hts _) (hdom _)
      intro a b hab
      refine hregs _ ?_ _ _ _ a b hab
      have hlt : k % n < regs.length := by
        rw [hlen]
        exact Nat.mod_lt k hn
      rw [List.getD_eq_getElem regs d hlt]
      exact List.getElem_mem hlt
    · rw [fitRound_outputs_other regs d lr X w domains n k _ j hjc]
      exact hts j

/-- Folding `min` from a smaller seed stays below folding `max` from a
larger seed. -/
theorem foldl_min_le_foldl_max : ∀ (l : List ℚ) (a b : ℚ), a ≤ b →
    l.foldl min a ≤ l.foldl max b
  | [], _, _, h => h
  | c :: l, a, b, h =>
    foldl_min_le_foldl_max l (min a c) (max b c)
      (le_trans (min_le_left a c) (le_trans h (le_max_left b c)))

/-- The minimum of a nonempty list is at most its maximum. -/
theorem listMin_le_listMax (l : List ℚ) (hl : l ≠ []) :
    listMin l ≤ listMax l := by
  cases l with
  | nil => exact absurd rfl hl
  | cons a r => exact foldl_min_le_foldl_max r a a le_rfl

/-- A `linspace` grid from `a` up to `b ≥ a` is non-decreasing. -/
theorem linspace_chain (a b : ℚ) (num : ℕ) (hab : a ≤ b) :
    (linspace a b num).Chain' (fun u v => u ≤ v) := by
  rw [linspace, List.chain'_iff_get]
  intro i hi
  simp only [List.length_map, List.length_range] at hi
  have h2 : i + 1 < num := by omega
  have h1 : i < num := by omega
  simp only [List.get_eq_getElem, List.getElem_map, List.getElem_range]
  rw [Nat.cast_add, Nat.cast_one]
  have hc : 0 ≤ (b - a) / ((num : ℚ) - 1) := by
    apply div_nonneg (sub_nonneg.mpr hab)
    have h2q : (2 : ℚ) ≤ (num : ℚ) := by exact_mod_cast (by omega : 2 ≤ num)
    linarith
  have hle := mul_le_mul_of_nonneg_right
    (by linarith : (i : ℚ) ≤ (i : ℚ) + 1) hc
  calc a + (i : ℚ) * (b - a) / ((num : ℚ) - 1)
      = a + (i : ℚ) * ((b - a) / ((num : ℚ) - 1)) := by ring
    _ ≤ a + ((i : ℚ) + 1) * ((b - a) / ((num : ℚ) - 1)) := by linarith
    _ = a + ((i : ℚ) + 1) * (b - a) / ((num : ℚ) - 1) := by ring

/-- A successful `check_X_y` means a nonempty table with a positive feature
count. -/
theorem checkXy_nonempty (X : List (List ℚ)) (y : List ℚ)
    (h : checkXy X y = true) : X ≠ [] ∧ 0 < nFeat X := by
  simp only [checkXy, Bool.and_eq_true, decide_eq_true_eq] at h
  obtain ⟨⟨⟨h1, h2⟩, -⟩, -⟩ := h
  refine ⟨?_, h2⟩
  intro hX
  rw [hX] at h1
  simp at h1

/-- The resolved regressor list always has one entry per feature. -/
theorem resolveRegs_length (spec : BaseSpec) (d : BaseReg) (n : ℕ)
    (regs : List BaseReg) (h : resolveRegs spec d n = .ok regs) :
    regs.length = n := by
  cases spec with
  | dflt =>
    simp only [resolveRegs] at h
    injection h with h
    rw [← h]
    exact List.length_replicate n d
  | single r =>
    simp only [resolveRegs] at h
    injection h with h
    rw [← h]
    exact List.length_replicate n r
  | perFeature rs =>
    simp only [resolveRegs] at h
    split at h
    · injection h with h
      rw [← h]
      assumption
    · cases h

/-- Every fitted grid is non-decreasing. -/
theorem fitDomains_chain (X : List (List ℚ)) (n G : ℕ) (hX : X ≠ []) :
    ∀ j, ((fitDomains X n G).getD j []).Chain' (fun u v => u ≤ v) := by
  intro j
  rcases lt_or_le j n with hj | hj
  · have hjl : j < (fitDomains X n G).length := by
      simpa [fitDomains] using hj
    rw [List.getD_eq_getElem _ _ hjl]
    simp only [fitDomains, List.getElem_map, List.getElem_range]
    apply linspace_chain
    apply listMin_le_listMax
    simp [column, hX]
  · rw [List.getD_eq_default]
    · exact List.chain'_nil
    · simpa [fitDomains] using hj

/-- Every initial output curve is a chain for any reflexive-at-zero
relation. -/
theorem initOutputs_chain (R : ℚ → ℚ → Prop) (h0 : R 0 0)
    (domains : List (List ℚ)) :
    ∀ j, ((initOutputs domains).getD j []).Chain' R := by
  intro j
  rcases lt_or_le j domains.length with hj | hj
  · have hjl : j < (initOutputs domains).length := by
      simpa [initOutputs] using hj
    rw [List.getD_eq_getElem _ _ hjl]
    simp only [initOutputs, List.getElem_map]
    exact chain_zero_map R h0 _
  · rw [List.getD_eq_default]
    · exact List.chain'_nil
    · simpa [initOutputs] using hj

/-- C5: if every per-feature base regressor predicts a monotonically
non-decreasing (respectively non-increasing) function of its single input
feature — for every fitting data — then every learned output curve is
non-decreasing (respectively non-increasing) along its grid, for every
number of rounds. -/
theorem monotone_base_monotone_curve (cfg : Config) (X : List (List ℚ))
    (y : List ℚ) (sw : Option (List ℚ)) (m : Model) (regs : List BaseReg)
    (j : ℕ)
    (hm : fitE cfg X y sw = .ok m)
    (hregs : resolveRegs cfg.base_regressor cfg.default_regressor (nFeat X)
      = .ok regs) :
    ((∀ r ∈ regs, ∀ col ys ws, Monotone (r.fitPredict col ys ws)) →
      (m.outputs_.getD j []).Chain' (fun u v => u ≤ v)) ∧
    ((∀ r ∈ regs, ∀ col ys ws, Antitone (r.fitPredict col ys ws)) →
      (m.outputs_.getD j []).Chain' (fun u v => v ≤ u)) := by
  obtain ⟨hXy, hlr, w, regs', hw', hregs', hmeq⟩ := fitE_ok_elim cfg X y sw m hm
  rw [hregs] at hregs'
  injection hregs' with hregs'
  subst hregs'
  obtain ⟨hXne, hn⟩ := checkXy_nonempty X y hXy
  have hlen : regs.length = nFeat X :=
    resolveRegs_length cfg.base_regressor cfg.default_regressor (nFeat X)
      regs hregs
  have hdom := fitDomains_chain X (nFeat X) cfg.grid_points hXne
  have houts : m.outputs_ = (fitRounds regs cfg.default_regressor
      cfg.learning_rate X w (fitDomains X (nFeat X) cfg.grid_points) (nFeat X)
      cfg.max_rounds
      ⟨initOutputs (fitDomains X (nFeat X) cfg.grid_points),
       y.map (fun v => v - listMean y)⟩).outputs := by
    rw [hmeq]
  constructor
  · intro hmono
    rw [houts]
    refine fitRounds_chain (fun u v => u ≤ v)
      (fun a b c d hab hcd => add_le_add hab hcd) regs cfg.default_regressor
      cfg.learning_rate X w _ (nFeat X) ?_ hn hlen hdom cfg.max_rounds _
      (initOutputs_chain (fun u v => u ≤ v) le_rfl _) j
    intro r hr col ys ws a b hab
    exact mul_le_mul_of_nonneg_left (hmono r hr col ys ws hab)
      (le_of_lt hlr)
  · intro hanti
    rw [houts]
    refine fitRounds_chain (fun u v => v ≤ u)
      (fun a b c d hab hcd => add_le_add hab hcd) regs cfg.default_regressor
      cfg.learning_rate X w _ (nFeat X) ?_ hn hlen hdom cfg.max_rounds _
      (initOutputs_chain (fun u v => v ≤ u) le_rfl _) j
    intro r hr col ys ws a b hab
    exact mul_le_mul_of_nonneg_left (hanti r hr col ys ws hab)
      (le_of_lt hlr)

/-- Witness for C5 at the demo fit with the single identity regressor. -/
theorem monotone_base_monotone_curve_witness :
    ((∀ r ∈ ([idReg] : List BaseReg), ∀ col ys ws,
        Monotone (r.fitPredict col ys ws)) →
      (mA.outputs_.getD 0 []).Chain' (fun u v => u ≤ v)) ∧
    ((∀ r ∈ ([idReg] : List BaseReg), ∀ col ys ws,
        Antitone (r.fitPredict col ys ws)) →
      (mA.outputs_.getD 0 []).Chain' (fun u v => v ≤ u)) :=
  monotone_base_monotone_curve cfgA demoX demoY none mA [idReg] 0 fitE_cfgA rfl

/-- C10: in `predict`, array validation runs before the fitted-state check:
on a never-fit estimator an input failing `check_array` raises the
input-validation error, not the not-fitted error, and the not-fitted error is
raised exactly when the input passes array validation. -/
theorem predict_validates_before_fitted_check (X : List (List ℚ)) :
    (checkArray X = false → predictE none X = .error .invalidInput) ∧
    (checkArray X = true → predictE none X = .error .notFitted) := by
  constructor <;> intro h <;> simp [predictE, h]

end SkBonus
